import Mathlib

/-
Verification of the UE project code-line statistics tool.

The tool (src/UELINESTATISTICS/src/main.rs) walks a directory tree,
filters files by path-based exclusion rules and by extension, and for
each kept file counts total lines and code lines, where a line is
non-code when its trimmed content is empty or carries a comment marker.

The embedding below models:
  - strings and lines as `List Char`, file contents as raw byte lists
    (`List Nat`, each entry a byte);
  - `BufRead::lines` as splitting the byte content at byte 10, removing
    a trailing byte 13 from every newline-terminated line, and decoding
    each raw line as UTF-8 (`Iterator::flatten` drops lines that fail
    to decode);
  - the directory walk as the list of regular files it yields, each
    with its path components and an optional content (`none` models a
    file that cannot be opened).
-/

/-- The fixed list of directory names that are always excluded
(EXCLUDE_DIR in main.rs). -/
def EXCLUDE_DIR : List String := ["Intermediate", "Binaries", "Saved", ".vs"]

/-- The fixed list of counted file extensions (INCLUDE_EXT in main.rs). -/
def INCLUDE_EXT : List String := ["h", "cpp", "inl"]

/-- The scan result record (StatResult in main.rs, derived Default = all
fields zero). -/
structure StatResult where
  files : Nat
  total_lines : Nat
  code_lines : Nat
deriving DecidableEq, Repr

/-- Whitespace as Rust's char::is_whitespace: the Unicode White_Space
code points. -/
def rustIsWhitespace (c : Char) : Bool :=
  [0x09, 0x0A, 0x0B, 0x0C, 0x0D, 0x20, 0x85, 0xA0, 0x1680,
   0x2000, 0x2001, 0x2002, 0x2003, 0x2004, 0x2005, 0x2006, 0x2007,
   0x2008, 0x2009, 0x200A, 0x2028, 0x2029, 0x202F, 0x205F, 0x3000].any
    (fun n => c.toNat == n)

/-- str::trim — drop whitespace from both ends of the line. -/
def strTrim (s : List Char) : List Char :=
  ((s.dropWhile rustIsWhitespace).reverse.dropWhile rustIsWhitespace).reverse

/-- is_comment_or_empty from main.rs: after trimming, the line is empty
or starts with a comment marker. -/
def is_comment_or_empty (line : List Char) : Bool :=
  let s := strTrim line
  s.isEmpty || List.isPrefixOf ['/', '/'] s || List.isPrefixOf ['/', '*'] s
    || List.isPrefixOf ['*'] s

/-- The global-exclusion part of should_skip: some path component equals
one of the EXCLUDE_DIR names. -/
def excludeHit (comps : List String) : Bool :=
  comps.any (fun name => EXCLUDE_DIR.any (fun d => d == name))

/-- The Plugins part of should_skip: the loop over component indices i
checking component i against "Plugins" and component i+1 against
"Intermediate" or "ThirdParty". -/
def pluginsSkip : List String → Bool
  | a :: b :: rest =>
      (a == "Plugins" && (b == "Intermediate" || b == "ThirdParty"))
        || pluginsSkip (b :: rest)
  | _ => false

/-- should_skip from main.rs, on the list of path components. -/
def should_skip (comps : List String) : Bool :=
  excludeHit comps || pluginsSkip comps

/-- The suffix of a character list following its last dot, if any dot
occurs in it. -/
def afterLastDot : List Char → Option (List Char)
  | [] => none
  | c :: cs =>
      match afterLastDot cs with
      | some e => some e
      | none => if c = '.' then some cs else none

/-- Path::extension on a file name: the portion after the last dot of
the name, where a dot in leading position does not count (so a name
with no dot past its first character has no extension). -/
def rustExtension (name : String) : Option String :=
  match name.data with
  | [] => none
  | _ :: rest => (afterLastDot rest).map (fun cs => String.mk cs)

/-- should_count from main.rs: the file name's extension is a member of
INCLUDE_EXT. -/
def should_count (name : String) : Bool :=
  match rustExtension name with
  | some e => INCLUDE_EXT.contains e
  | none => false

/-- Remove one trailing carriage-return byte, as lines() does after
removing the terminating newline byte. -/
def stripCR (l : List Nat) : List Nat :=
  if l.getLast? = some 13 then l.dropLast else l

/-- Split byte content at newline bytes (byte 10). Every newline ends a
raw line (with one trailing byte 13 then removed); a final segment not
ended by a newline is a raw line only when nonempty, exactly as
BufRead::lines yields lines. -/
def linesOfAux : List Nat → List Nat → List (List Nat)
  | acc, [] => if acc.isEmpty then [] else [acc.reverse]
  | acc, b :: bs =>
      if b = 10 then stripCR acc.reverse :: linesOfAux [] bs
      else linesOfAux (b :: acc) bs

/-- The raw lines of a byte content. -/
def linesOf (bytes : List Nat) : List (List Nat) :=
  linesOfAux [] bytes

/-- Strict UTF-8 decoding of a byte list, as str::from_utf8: rejects
continuation-byte runs, overlong forms, surrogate code points and code
points above 0x10FFFF. -/
def utf8Decode : List Nat → Option (List Char)
  | [] => some []
  | b :: bs =>
      if b < 0x80 then
        match utf8Decode bs with
        | some cs => some (Char.ofNat b :: cs)
        | none => none
      else if b < 0xC2 then none
      else if b < 0xE0 then
        match bs with
        | b1 :: bs1 =>
            if 0x80 ≤ b1 && b1 < 0xC0 then
              match utf8Decode bs1 with
              | some cs => some (Char.ofNat ((b - 0xC0) * 0x40 + (b1 - 0x80)) :: cs)
              | none => none
            else none
        | [] => none
      else if b < 0xF0 then
        match bs with
        | b1 :: b2 :: bs2 =>
            if (0x80 ≤ b1 && b1 < 0xC0) && (0x80 ≤ b2 && b2 < 0xC0) then
              let cp := (b - 0xE0) * 0x1000 + (b1 - 0x80) * 0x40 + (b2 - 0x80)
              if cp < 0x800 || (0xD800 ≤ cp && cp < 0xE000) then none
              else
                match utf8Decode bs2 with
                | some cs => some (Char.ofNat cp :: cs)
                | none => none
            else none
        | _ => none
      else if b < 0xF5 then
        match bs with
        | b1 :: b2 :: b3 :: bs3 =>
            if (0x80 ≤ b1 && b1 < 0xC0) && ((0x80 ≤ b2 && b2 < 0xC0) && (0x80 ≤ b3 && b3 < 0xC0)) then
              let cp := (b - 0xF0) * 0x40000 + (b1 - 0x80) * 0x1000
                          + (b2 - 0x80) * 0x40 + (b3 - 0x80)
              if cp < 0x10000 || 0x110000 ≤ cp then none
              else
                match utf8Decode bs3 with
                | some cs => some (Char.ofNat cp :: cs)
                | none => none
            else none
        | _ => none
      else none

/-- A regular file yielded by the directory walk: the directory
components of its path, its file-name component, and its byte content
(`none` models a file File::open fails on). -/
structure FsFile where
  dirs : List String
  name : String
  content : Option (List Nat)

/-- The full component list of a file's path. -/
def FsFile.components (f : FsFile) : List String :=
  f.dirs ++ [f.name]

/-- The per-line body of the scan loop: total_lines is incremented for
every decoded line, code_lines only when the line is not comment or
empty. -/
def lineStep (r : StatResult) (line : List Char) : StatResult :=
  { r with
      total_lines := r.total_lines + 1,
      code_lines := if is_comment_or_empty line then r.code_lines else r.code_lines + 1 }

/-- The per-file line loop of stat_ue_code: decode the raw lines,
dropping undecodable ones (lines().flatten()), and fold lineStep. -/
def processRawLines (r : StatResult) (raw : List (List Nat)) : StatResult :=
  List.foldl lineStep r (raw.filterMap utf8Decode)

/-- The per-file body of stat_ue_code's walk loop: skip the file when
should_skip holds of its path or should_count fails of it; otherwise,
when it can be opened, count it and process its lines. -/
def statFile (r : StatResult) (f : FsFile) : StatResult :=
  if should_skip f.components || !(should_count f.name) then r
  else
    match f.content with
    | none => r
    | some bytes =>
        processRawLines { r with files := r.files + 1 } (linesOf bytes)

/-- stat_ue_code from main.rs, on the list of regular files the walk
yields: fold statFile starting from the all-zero result. -/
def stat_ue_code (files : List FsFile) : StatResult :=
  List.foldl statFile ⟨0, 0, 0⟩ files

/-- The number of line breaks (newline bytes) in a byte content. -/
def lineBreakCount : List Nat → Nat
  | [] => 0
  | b :: bs => (if b = 10 then 1 else 0) + lineBreakCount bs

/-- The byte list of an ASCII string. -/
def asciiBytes (s : String) : List Nat :=
  s.data.map Char.toNat

/-- A ten-line sample file content: five code lines, three blank lines,
one line-comment line and one block-continuation line. -/
def sampleContent : List Nat :=
  asciiBytes "int a;\nint b;\n\n// cmt\nint c;\n\n* blk\nint d;\n\nint e;\n"

/-- C8: for an empty root directory the walk yields no regular files,
and the scan returns the all-zero StatResult. -/
theorem c8_empty_scan : stat_ue_code [] = ⟨0, 0, 0⟩ := rfl

/-- C7: a tree with exactly one included file of 10 lines, 3 blank and
2 comment-prefixed, scans to files = 1, total_lines = 10,
code_lines = 5. -/
theorem c7_sample_tree :
    stat_ue_code [⟨["MyProj", "Source"], "A.cpp", some sampleContent⟩] = ⟨1, 10, 5⟩ := by
  decide

/-- The spec's description of a non-code line: after trimming
whitespace from both ends, the line is empty or starts with a
line-comment marker, a block-comment opener, or a block-comment
continuation marker. -/
def specNonCode (line : List Char) : Prop :=
  strTrim line = [] ∨ ['/', '/'] <+: strTrim line ∨ ['/', '*'] <+: strTrim line
    ∨ ['*'] <+: strTrim line

/-- C1: the classifier marks a line as non-code exactly when its
trimmed content is empty or starts with a comment marker; every line
increments total_lines, and exactly the other lines increment
code_lines. -/
theorem c1_line_classifier (line : List Char) (r : StatResult) :
    (is_comment_or_empty line = true ↔ specNonCode line) ∧
    (lineStep r line).total_lines = r.total_lines + 1 ∧
    (specNonCode line → (lineStep r line).code_lines = r.code_lines) ∧
    (¬ specNonCode line → (lineStep r line).code_lines = r.code_lines + 1) := by
  have hiff : is_comment_or_empty line = true ↔ specNonCode line := by
    simp only [is_comment_or_empty, specNonCode, List.isPrefixOf_iff_prefix,
      List.isEmpty_iff, Bool.or_eq_true]
    tauto
  refine ⟨hiff, rfl, ?_, ?_⟩
  · intro h
    simp [lineStep, hiff.mpr h]
  · intro h
    have hfalse : is_comment_or_empty line = false := by
      cases hb : is_comment_or_empty line
      · rfl
      · exact absurd (hiff.mp hb) h
    simp [lineStep, hfalse]
  
/-- Witness for C1 at a concrete code line. -/
theorem c1_witness : (lineStep ⟨0, 0, 0⟩ ['x']).code_lines = 0 + 1 :=
  (c1_line_classifier ['x'] ⟨0, 0, 0⟩).2.2.2 (by unfold specNonCode; decide)

/-- A file failing the extension filter contributes nothing. -/
theorem statFile_skip_of_not_counted (r : StatResult) (f : FsFile)
    (h : should_count f.name = false) : statFile r f = r := by
  simp [statFile, h]

/-- Removing a contribution-free file from the walk leaves the scan
result unchanged. -/
theorem stat_drop_mid (pre post : List FsFile) (f : FsFile)
    (h : ∀ r, statFile r f = r) :
    stat_ue_code (pre ++ f :: post) = stat_ue_code (pre ++ post) := by
  unfold stat_ue_code
  rw [List.foldl_append, List.foldl_append, List.foldl_cons, h]

/-- C3: a file is counted exactly when its extension is in the fixed
set, and a file whose extension filter fails never contributes
anywhere in the walk. -/
theorem c3_extension_filter :
    (∀ name : String, should_count name = true ↔
        ∃ e, rustExtension name = some e ∧ (e = "h" ∨ e = "cpp" ∨ e = "inl")) ∧
    (∀ (pre post : List FsFile) (f : FsFile), should_count f.name = false →
        stat_ue_code (pre ++ f :: post) = stat_ue_code (pre ++ post)) := by
  constructor
  · intro name
    cases hext : rustExtension name with
    | none => simp [should_count, hext]
    | some e => simp [should_count, hext, INCLUDE_EXT]
  · intro pre post f h
    exact stat_drop_mid pre post f (fun r => statFile_skip_of_not_counted r f h)

/-- Witness for C3 on a concrete extension-less file. -/
theorem c3_witness :
    stat_ue_code [⟨[], "README", none⟩] = stat_ue_code [] :=
  c3_extension_filter.2 [] [] ⟨[], "README", none⟩ (by decide)

/-- C10: a file whose extension matches a counted extension only up to
letter case, without being exactly equal to one, is not counted. -/
theorem c10_case_sensitive_ext (name : String) (e : String)
    (hext : rustExtension name = some e)
    (_hcase : e.data.map Char.toLower = "h".data ∨ e.data.map Char.toLower = "cpp".data
      ∨ e.data.map Char.toLower = "inl".data)
    (h1 : e ≠ "h") (h2 : e ≠ "cpp") (h3 : e ≠ "inl") :
    should_count name = false := by
  simp [should_count, hext, INCLUDE_EXT, h1, h2, h3]

/-- Witness for C10 at the concrete file name A.CPP. -/
theorem c10_witness : should_count "A.CPP" = false :=
  c10_case_sensitive_ext "A.CPP" "CPP" (by decide) (Or.inr (Or.inl (by decide)))
    (by decide) (by decide) (by decide)

/-- Unrolling of pluginsSkip by one component: the head pair is
checked, then the loop continues on the tail. -/
theorem pluginsSkip_cons (a : String) (l : List String) :
    pluginsSkip (a :: l) =
      ((match l with
        | b :: _ => a == "Plugins" && (b == "Intermediate" || b == "ThirdParty")
        | [] => false) || pluginsSkip l) := by
  cases l with
  | nil => rfl
  | cons b rest => rfl

/-- The Plugins loop succeeds exactly when some component equals
"Plugins" and the following component equals "Intermediate" or
"ThirdParty". -/
theorem pluginsSkip_iff (comps : List String) :
    pluginsSkip comps = true ↔
      ∃ i, comps[i]? = some "Plugins" ∧
        (comps[i + 1]? = some "Intermediate" ∨ comps[i + 1]? = some "ThirdParty") := by
  induction comps with
  | nil => simp [pluginsSkip]
  | cons a l ih =>
    rw [pluginsSkip_cons, Bool.or_eq_true, ih]
    constructor
    · rintro (hhead | ⟨i, h1, h2⟩)
      · cases l with
        | nil => simp at hhead
        | cons b rest =>
          simp only [Bool.and_eq_true, Bool.or_eq_true, beq_iff_eq] at hhead
          obtain ⟨ha, hb⟩ := hhead
          refine ⟨0, by simp [ha], ?_⟩
          rcases hb with hb | hb
          · exact Or.inl (by simp [hb])
          · exact Or.inr (by simp [hb])
      · exact ⟨i + 1, by simpa using h1, by simpa using h2⟩
    · rintro ⟨i, h1, h2⟩
      cases i with
      | zero =>
        left
        simp only [List.getElem?_cons_zero, Option.some.injEq] at h1
        cases l with
        | nil => simp at h2
        | cons b rest =>
          simp only [List.getElem?_cons_succ, List.getElem?_cons_zero,
            Option.some.injEq] at h2
          subst h1
          rcases h2 with h2 | h2 <;> simp [h2]
      | succ j =>
        right
        exact ⟨j, by simpa using h1, by simpa using h2⟩

/-- The global-exclusion check succeeds exactly when some component is
one of the four excluded names. -/
theorem excludeHit_iff (comps : List String) :
    excludeHit comps = true ↔
      ∃ c, c ∈ comps ∧ (c = "Intermediate" ∨ c = "Binaries" ∨ c = "Saved" ∨ c = ".vs") := by
  simp only [excludeHit, List.any_eq_true, EXCLUDE_DIR]
  constructor
  · rintro ⟨c, hc, hany⟩
    simp only [List.any_eq_true, List.mem_cons, List.not_mem_nil, beq_iff_eq] at hany
    obtain ⟨d, hd, hdc⟩ := hany
    subst hdc
    refine ⟨d, hc, ?_⟩
    simpa using hd
  · rintro ⟨c, hc, hnames⟩
    refine ⟨c, hc, ?_⟩
    simp only [List.any_eq_true, List.mem_cons, List.not_mem_nil, beq_iff_eq]
    rcases hnames with h | h | h | h <;> exact ⟨c, by simp [h], rfl⟩

/-- C2: should_skip holds of a path exactly when some component is one
of the fixed excluded names, or some component named "Plugins" is
immediately followed by one named "Intermediate" or "ThirdParty". -/
theorem c2_skip_characterization (comps : List String) :
    should_skip comps = true ↔
      ((∃ c, c ∈ comps ∧ (c = "Intermediate" ∨ c = "Binaries" ∨ c = "Saved" ∨ c = ".vs")) ∨
       (∃ i, comps[i]? = some "Plugins" ∧
         (comps[i + 1]? = some "Intermediate" ∨ comps[i + 1]? = some "ThirdParty"))) := by
  unfold should_skip
  rw [Bool.or_eq_true, excludeHit_iff, pluginsSkip_iff]

/-- Witness for C2 at a concrete path inside a Plugins/ThirdParty
directory. -/
theorem c2_witness : should_skip ["Proj", "Plugins", "ThirdParty", "a.cpp"] = true :=
  (c2_skip_characterization ["Proj", "Plugins", "ThirdParty", "a.cpp"]).mpr
    (Or.inr ⟨1, by decide, Or.inr (by decide)⟩)

/-- One line of the loop preserves code_lines ≤ total_lines. -/
theorem lineStep_le (r : StatResult) (line : List Char)
    (h : r.code_lines ≤ r.total_lines) :
    (lineStep r line).code_lines ≤ (lineStep r line).total_lines := by
  simp only [lineStep]
  split <;> omega

/-- The line loop preserves code_lines ≤ total_lines. -/
theorem foldl_lineStep_le (ls : List (List Char)) :
    ∀ r : StatResult, r.code_lines ≤ r.total_lines →
      (List.foldl lineStep r ls).code_lines ≤ (List.foldl lineStep r ls).total_lines := by
  induction ls with
  | nil => intro r h; simpa using h
  | cons l t ih =>
    intro r h
    rw [List.foldl_cons]
    exact ih _ (lineStep_le r l h)

/-- One file of the walk loop preserves code_lines ≤ total_lines. -/
theorem statFile_le (r : StatResult) (f : FsFile)
    (h : r.code_lines ≤ r.total_lines) :
    (statFile r f).code_lines ≤ (statFile r f).total_lines := by
  unfold statFile
  split
  · exact h
  · split
    · exact h
    · exact foldl_lineStep_le _ _ h

/-- The walk loop preserves code_lines ≤ total_lines. -/
theorem foldl_statFile_le (fs : List FsFile) :
    ∀ r : StatResult, r.code_lines ≤ r.total_lines →
      (List.foldl statFile r fs).code_lines ≤ (List.foldl statFile r fs).total_lines := by
  induction fs with
  | nil => intro r h; simpa using h
  | cons f t ih =>
    intro r h
    rw [List.foldl_cons]
    exact ih _ (statFile_le r f h)

/-- C5: code_lines never exceeds total_lines: the inequality holds
after every line, after every file, and for the final result of every
scan. -/
theorem c5_code_le_total :
    (∀ (r : StatResult) (line : List Char), r.code_lines ≤ r.total_lines →
        (lineStep r line).code_lines ≤ (lineStep r line).total_lines) ∧
    (∀ (r : StatResult) (f : FsFile), r.code_lines ≤ r.total_lines →
        (statFile r f).code_lines ≤ (statFile r f).total_lines) ∧
    (∀ fs : List FsFile,
        (stat_ue_code fs).code_lines ≤ (stat_ue_code fs).total_lines) :=
  ⟨lineStep_le, statFile_le, fun fs => foldl_statFile_le fs ⟨0, 0, 0⟩ (Nat.le_refl 0)⟩

/-- Witness for C5 on a concrete scan state and line. -/
theorem c5_witness :
    (lineStep ⟨2, 4, 3⟩ ['y']).code_lines ≤ (lineStep ⟨2, 4, 3⟩ ['y']).total_lines :=
  c5_code_le_total.1 ⟨2, 4, 3⟩ ['y'] (by decide)

/-- A file that cannot be opened contributes nothing. -/
theorem statFile_unopenable (r : StatResult) (f : FsFile)
    (h : f.content = none) : statFile r f = r := by
  unfold statFile
  rw [h]
  split <;> rfl

/-- C6: a file passing the path and extension filters whose open fails
is silently skipped, and the scan result equals that of the same walk
with the file absent. -/
theorem c6_unopenable_file (pre post : List FsFile) (f : FsFile)
    (_hskip : should_skip f.components = false)
    (_hcnt : should_count f.name = true)
    (hopen : f.content = none) :
    stat_ue_code (pre ++ f :: post) = stat_ue_code (pre ++ post) :=
  stat_drop_mid pre post f (fun r => statFile_unopenable r f hopen)

/-- Witness for C6 on a concrete unopenable file. -/
theorem c6_witness :
    stat_ue_code [⟨["Proj"], "x.cpp", none⟩] = stat_ue_code [] :=
  c6_unopenable_file [] [] ⟨["Proj"], "x.cpp", none⟩ (by decide) (by decide) rfl

/-- C9: a raw line whose bytes do not decode is dropped by the line
loop: it changes neither total_lines nor code_lines, and the following
raw lines of the same file are still processed. -/
theorem c9_undecodable_line_dropped (r : StatResult) (pre post : List (List Nat))
    (bad : List Nat) (hbad : utf8Decode bad = none) :
    processRawLines r (pre ++ bad :: post) = processRawLines r (pre ++ post) := by
  unfold processRawLines
  rw [List.filterMap_append, List.filterMap_cons_none hbad, List.filterMap_append]

/-- Witness for C9 with a concrete invalid byte between two valid
lines. -/
theorem c9_witness :
    processRawLines ⟨0, 0, 0⟩ [[97], [255], [98]] = processRawLines ⟨0, 0, 0⟩ [[97], [98]] :=
  c9_undecodable_line_dropped ⟨0, 0, 0⟩ [[97]] [[98]] [255] (by decide)

/-- Whether a byte content ends with a newline byte. -/
def endsWithNL : List Nat → Bool
  | [] => false
  | [b] => b == 10
  | _ :: b :: t => endsWithNL (b :: t)

/-- The line loop adds the number of processed lines to total_lines. -/
theorem foldl_lineStep_total (ls : List (List Char)) :
    ∀ r : StatResult,
      (List.foldl lineStep r ls).total_lines = r.total_lines + ls.length := by
  induction ls with
  | nil => intro r; simp
  | cons l t ih =>
    intro r
    rw [List.foldl_cons, ih]
    simp only [lineStep, List.length_cons]
    omega

/-- filterMap drops nothing when the function succeeds on every
element. -/
theorem filterMap_length_all_some {α β : Type} (g : α → Option β) :
    ∀ ls : List α, (∀ l ∈ ls, (g l).isSome = true) →
      (ls.filterMap g).length = ls.length := by
  intro ls
  induction ls with
  | nil => intro _; rfl
  | cons a t ih =>
    intro h
    obtain ⟨b, hb⟩ := Option.isSome_iff_exists.mp (h a (by simp))
    rw [List.filterMap_cons_some hb, List.length_cons, List.length_cons,
      ih (fun l hl => h l (by simp [hl]))]

/-- The number of raw lines of a content is its newline count, plus one
for a nonempty terminal segment not ended by a newline. -/
theorem linesOfAux_length (bs : List Nat) :
    ∀ acc : List Nat,
      (linesOfAux acc bs).length =
        lineBreakCount bs +
          (if endsWithNL bs then 0 else if acc.isEmpty && bs.isEmpty then 0 else 1) := by
  induction bs with
  | nil =>
    intro acc
    cases acc with
    | nil => simp [linesOfAux, lineBreakCount, endsWithNL]
    | cons a t => simp [linesOfAux, lineBreakCount, endsWithNL]
  | cons b t ih =>
    intro acc
    cases t with
    | nil =>
      by_cases hb : b = 10
      · subst hb
        simp [linesOfAux, lineBreakCount, endsWithNL]
      · simp [linesOfAux, hb, lineBreakCount, endsWithNL]
    | cons c u =>
      have hcons : ∀ a2 : List Nat,
          linesOfAux a2 (b :: c :: u) =
            if b = 10 then stripCR a2.reverse :: linesOfAux [] (c :: u)
            else linesOfAux (b :: a2) (c :: u) := fun a2 => rfl
      have hE2 : endsWithNL (b :: c :: u) = endsWithNL (c :: u) := rfl
      by_cases hb : b = 10
      · subst hb
        rw [hcons, if_pos rfl, List.length_cons, ih [], hE2]
        have hlb : lineBreakCount (10 :: c :: u) = 1 + lineBreakCount (c :: u) := by
          simp [lineBreakCount]
        rw [hlb]
        cases hE : endsWithNL (c :: u) <;> simp [hE] <;> omega
      · rw [hcons, if_neg hb, ih (b :: acc), hE2]
        have hlb : lineBreakCount (b :: c :: u) = lineBreakCount (c :: u) := by
          simp [lineBreakCount, hb]
        rw [hlb]
        cases hE : endsWithNL (c :: u) <;> simp [hE]

/-- C4 counterexample: a counted one-byte file without any newline has
a total_lines contribution of 1 while its content has 0 line breaks. -/
theorem c4_counterexample :
    (stat_ue_code [⟨[], "a.cpp", some [97]⟩]).files = 1 ∧
    (stat_ue_code [⟨[], "a.cpp", some [97]⟩]).total_lines = 1 ∧
    lineBreakCount [97] = 0 := by
  decide

/-- C4 (amended): for a counted file whose raw lines all decode, the
total_lines contribution equals the number of line breaks in the
content when the content is empty or ends with a line break, and that
number plus one otherwise. -/
theorem c4_total_lines_amended (r : StatResult) (f : FsFile) (bytes : List Nat)
    (hc : f.content = some bytes)
    (hdec : ∀ l ∈ linesOf bytes, (utf8Decode l).isSome = true)
    (hskip : should_skip f.components = false)
    (hcnt : should_count f.name = true) :
    (statFile r f).total_lines =
      r.total_lines + lineBreakCount bytes +
        (if bytes.isEmpty || endsWithNL bytes then 0 else 1) := by
  have hlen := linesOfAux_length bytes []
  simp only [statFile, hskip, hcnt, hc, Bool.not_true, Bool.or_false, Bool.false_or,
    Bool.false_eq_true, if_false, processRawLines]
  rw [foldl_lineStep_total, filterMap_length_all_some utf8Decode (linesOf bytes) hdec]
  unfold linesOf
  rw [hlen]
  cases hE : endsWithNL bytes <;> cases hBytes : bytes <;>
    (simp [hE, hBytes]; try omega)

/-- Witness for the amended C4 on a concrete two-byte file ending with
a newline. -/
theorem c4_witness :
    (statFile ⟨0, 0, 0⟩ ⟨[], "w.cpp", some [104, 10]⟩).total_lines =
      0 + lineBreakCount [104, 10] +
        (if ([104, 10] : List Nat).isEmpty || endsWithNL [104, 10] then 0 else 1) :=
  c4_total_lines_amended ⟨0, 0, 0⟩ ⟨[], "w.cpp", some [104, 10]⟩ [104, 10] rfl
    (by decide) (by decide) (by decide)
